import Mathlib

/-!
Verification of the bitfield codec layer of the undervolt tool
(src/undervolt.py): the voltage-offset mailbox codec, the RAPL
power-limit codec with its non-invertible time-window encoding, and the
set-and-verify control flow.

Python integers are modelled as ℤ (register values, being 64-bit
unsigned reads, as ℕ), Python floats as exact rationals ℚ, Python
bitwise operators as the two's-complement bitwise operations on ℤ, and
fallible control flow as explicit outcome values together with a list
of the register writes a call performs.
-/

section Spec2Proof

attribute [local semireducible] Rat.mul Rat.add Rat.sub Rat.inv Rat.ofScientific

namespace Undervolt

/-- Python's round-half-to-even on a rational (the semantics of the
built-in round function applied to our exact-rational model of float). -/
def pyRound (q : ℚ) : ℤ :=
  if q - ⌊q⌋ < 1/2 then ⌊q⌋
  else if 1/2 < q - ⌊q⌋ then ⌊q⌋ + 1
  else if ⌊q⌋ % 2 = 0 then ⌊q⌋ else ⌊q⌋ + 1

/-- Python's int() applied to a float: truncation toward zero. -/
def pyInt (q : ℚ) : ℤ :=
  if 0 ≤ q then ⌊q⌋ else ⌈q⌉

/-- Python's left shift on an arbitrary-precision integer. -/
def pyShiftLeft (n : ℤ) (k : ℕ) : ℤ := n * 2 ^ k

/-- convert_rounded_offset (undervolt.py line 135):
0xFFE00000 & ((x & 0xFFF) << 21). -/
def convert_rounded_offset (x : ℤ) : ℤ :=
  Int.land 0xFFE00000 (pyShiftLeft (Int.land x 0xFFF) 21)

/-- unconvert_rounded_offset (undervolt.py line 139):
x = y >> 21; x if x <= 1024 else -(2048 - x). -/
def unconvert_rounded_offset (y : ℤ) : ℤ :=
  let x := Int.shiftRight y 21
  if x ≤ 1024 then x else -(2048 - x)

/-- convert_offset (undervolt.py line 96):
convert_rounded_offset(int(round(mV*1.024))). -/
def convert_offset (mV : ℚ) : ℤ :=
  convert_rounded_offset (pyRound (mV * 1.024))

/-- unconvert_offset (undervolt.py line 110):
unconvert_rounded_offset(y) / 1.024. -/
def unconvert_offset (y : ℤ) : ℚ :=
  (unconvert_rounded_offset y : ℚ) / 1.024

/-- pack_offset (undervolt.py line 150):
(1 << 63) | (plane_index << 40) | (1 << 36) |
((offset is not None) << 32) | (offset or 0). -/
def pack_offset (plane_index : ℤ) (offset : Option ℤ) : ℤ :=
  Int.lor
    (Int.lor
      (Int.lor
        (Int.lor (pyShiftLeft 1 63) (pyShiftLeft plane_index 40))
        (pyShiftLeft 1 36))
      (pyShiftLeft (if offset.isSome then 1 else 0) 32))
    (offset.getD 0)

/-- The plane-index component of a mailbox response
(undervolt.py line 186): int(msr_response / (1 << 40)).  The source
divides with Python float division and truncates; for the 64-bit
responses in scope this equals integer division, which is used here. -/
def response_plane (msr_response : ℤ) : ℤ :=
  msr_response / pyShiftLeft 1 40

/-- unpack_offset (undervolt.py line 175):
unconvert_offset(msr_response ^ (plane_index << 40)). -/
def unpack_offset (msr_response : ℤ) : ℚ :=
  unconvert_offset (Int.xor msr_response (pyShiftLeft (response_plane msr_response) 40))

/-- Outcome of set_offset: ok, or the SystemExit the source raises after
logging the intended and observed millivolt values. -/
inductive OffsetOutcome where
  | ok : OffsetOutcome
  | verificationFailed : ℚ → ℚ → OffsetOutcome
deriving DecidableEq

/-- Result of a set_offset call: the values written to the
voltage-offset mailbox register, in order, and the outcome. -/
structure OffsetResult where
  writes : List ℤ
  outcome : OffsetOutcome
deriving DecidableEq

/-- set_offset (undervolt.py line 208).  The mailbox response that
read_offset obtains after the write is passed in as an argument
(`response`); the source raises SystemExit when the re-read millivolt
value differs from the one intended. -/
def set_offset (plane_index : ℤ) (mV : ℚ) (response : ℤ) : OffsetResult :=
  let target := convert_offset mV
  let write_value := pack_offset plane_index (some target)
  let want_mv := unconvert_offset target
  let read_mv := unpack_offset response
  ⟨[write_value, pack_offset plane_index none],
    if want_mv ≠ read_mv then OffsetOutcome.verificationFailed want_mv read_mv
    else OffsetOutcome.ok⟩

/-- Bounded binary logarithm: fuel-driven so that it is structurally
recursive (and hence kernel-computable). -/
def log2fuel : ℕ → ℕ → ℕ
  | 0, _ => 0
  | fuel+1, n => if 2 ≤ n then log2fuel fuel (n / 2) + 1 else 0

/-- Floor of the base-2 logarithm of a positive natural below 2^64. -/
def floorLog2 (n : ℕ) : ℕ := log2fuel 64 n

/-- Python's int(log2(q)) for a positive rational q: log2 truncated
toward zero (int() truncates; for q >= 1 that is the floor of log2 q,
for 0 < q < 1 it is minus the floor of log2 of the reciprocal). -/
def truncLog2 (q : ℚ) : ℤ :=
  if 1 ≤ q then (floorLog2 ⌊q⌋.toNat : ℤ) else -(floorLog2 ⌊q⁻¹⌋.toNat : ℤ)

/-- Exponent rounding of set_power_limit.from_seconds (undervolt.py
lines 273-277): exp_int = int(log2(val_mult)), then round up when the
distance to the next power of two is not larger. -/
def candExpRound (val_mult : ℚ) : ℤ :=
  if (2:ℚ)^(truncLog2 val_mult + 1) - val_mult ≤ val_mult - (2:ℚ)^(truncLog2 val_mult)
  then truncLog2 val_mult + 1 else truncLog2 val_mult

/-- The per-multiplier exponent of set_power_limit.from_seconds
(undervolt.py lines 273-279): the rounded exponent, clamped (only)
above at 0x1f. -/
def candExp (val_mult : ℚ) : ℤ :=
  if 0x1f < candExpRound val_mult then 0x1f else candExpRound val_mult

/-- The multiplier 1 + y/4 of set_power_limit.from_seconds
(undervolt.py line 271). -/
def candMult (y : ℤ) : ℚ := 1 + (y : ℚ) / 4

/-- The exponent candidate for iteration y of the search loop. -/
def candE (val : ℚ) (y : ℤ) : ℤ := candExp (val / candMult y)

/-- back_val of set_power_limit.from_seconds (undervolt.py line 280). -/
def candBack (val : ℚ) (y : ℤ) : ℚ := (2:ℚ)^(candE val y) * candMult y

/-- The absolute error of iteration y's candidate against the scaled
requested value (undervolt.py line 281). -/
def candErr (val : ℚ) (y : ℤ) : ℚ := |candBack val y - val|

/-- The encoded field produced by iteration y: y << 5 | exp_int
(undervolt.py line 283). -/
def candField (val : ℚ) (y : ℤ) : ℤ := Int.lor (pyShiftLeft y 5) (candE val y)

/-- One iteration of the search loop of set_power_limit.from_seconds
(undervolt.py lines 270-283), carrying (min_err, result). -/
def fsStep (val : ℚ) (acc : ℚ × ℤ) (y : ℤ) : ℚ × ℤ :=
  if candErr val y < acc.1 then (candErr val y, candField val y) else acc

/-- set_power_limit.from_seconds (undervolt.py lines 262-284) on the
already-scaled value val = seconds * unit.  math.log2 raises ValueError
on a non-positive argument (modelled as none); the guard
log2(val/1.75) >= 0x1f is equivalent, for positive val, to
val >= 1.75 * 2^31 and saturates the field at 0xfe. -/
def from_secondsVal (val : ℚ) : Option ℤ :=
  if val ≤ 0 then none
  else if (7/4) * (2:ℚ)^(31:ℕ) ≤ val then some 0xfe
  else some (List.foldl (fsStep val) ((10:ℚ)^9, 0) [0, 1, 2, 3]).2

/-- set_power_limit.from_seconds (undervolt.py line 262): the first
statement scales the seconds value by the time unit. -/
def from_seconds (v unit : ℚ) : Option ℤ := from_secondsVal (v * unit)

/-- The unit-free part of read_power_limit.to_seconds
(undervolt.py line 243): 2^(val & 0x1f) * (1 + ((val >> 5) & 0x3)/4). -/
def to_secondsVal (v : ℤ) : ℚ :=
  (2:ℚ) ^ Int.land v 0x1f * (1 + ((Int.land (Int.shiftRight v 5) 0x3 : ℤ) : ℚ) / 4)

/-- read_power_limit.to_seconds (undervolt.py line 243). -/
def to_seconds (v : ℤ) (unit : ℚ) : ℚ := to_secondsVal v / unit

/-- The quantization step, in seconds, of the exponent/multiplier
combination carried by an encoded time field: the gap between the value
decoded from the field and the next representable value with the same
multiplier is 2^(e+1)*m - 2^e*m = 2^e*m, scaled down by the time unit. -/
def quant_step (field : ℤ) (unit : ℚ) : ℚ :=
  (2:ℚ) ^ Int.land field 0x1f * (1 + ((Int.land (Int.shiftRight field 5) 0x3 : ℤ) : ℚ) / 4) / unit

/-- The decoded power-limit register (undervolt.py class PowerLimit,
line 228), with backup_rest holding the reserved bits. -/
structure PowerLimit where
  short_term_enabled : Bool
  short_term_power : ℚ
  short_term_time : ℚ
  long_term_enabled : Bool
  long_term_power : ℚ
  long_term_time : ℚ
  locked : Bool
  backup_rest : ℕ
deriving DecidableEq

/-- read_power_limit (undervolt.py line 241), as a pure function of the
two register reads it performs (the unit-scaling register and the
power-limit register). -/
def read_power_limit (units val : ℕ) : PowerLimit :=
  let power_unit : ℕ := 2 ^ (units &&& 0xf)
  let time_unit : ℕ := 2 ^ ((units >>> 16) &&& 0xf)
  ⟨(val >>> 47) &&& 0x1 = 1,
    (((val >>> 32) &&& 0x7fff : ℕ) : ℚ) / (power_unit : ℚ),
    to_seconds ((val >>> 49 : ℕ) : ℤ) (time_unit : ℚ),
    (val >>> 15) &&& 0x1 = 1,
    ((val &&& 0x7fff : ℕ) : ℚ) / (power_unit : ℚ),
    to_seconds ((val >>> 17 : ℕ) : ℤ) (time_unit : ℚ),
    (val >>> 63) &&& 1 = 1,
    val &&& 0x7f010000ff010000⟩

/-- A power-limit request (undervolt.py class PowerLimit as used by
set_power_limit): a none field means "inherit the current value". -/
structure PowerLimitRequest where
  short_term_enabled : Option Bool
  short_term_power : Option ℚ
  short_term_time : Option ℚ
  long_term_enabled : Option Bool
  long_term_power : Option ℚ
  long_term_time : Option ℚ
  locked : Option Bool
deriving DecidableEq

/-- Outcome of set_power_limit: ok, or one of its failure modes: locked
register, power value out of [0, 0x7fff], math.log2 domain error while
encoding a time, or the post-write verification mismatch (with intended
and observed values). -/
inductive PowerLimitOutcome where
  | ok : PowerLimitOutcome
  | powerLimitLocked : PowerLimitOutcome
  | powerOutOfRange : PowerLimitOutcome
  | timeEncodeError : PowerLimitOutcome
  | verificationFailed : ℤ → ℕ → PowerLimitOutcome
deriving DecidableEq

/-- Result of a set_power_limit call: the values written to the
power-limit register, in order, and the outcome. -/
structure PowerLimitResult where
  writes : List ℤ
  outcome : PowerLimitOutcome
deriving DecidableEq

/-- The requested-or-inherited short-term power, scaled to the register
unit and truncated by int() (undervolt.py lines 299-301). -/
def resolved_short_term_power_int (req : PowerLimitRequest) (units old_val : ℕ) : ℤ :=
  pyInt (req.short_term_power.getD (read_power_limit units old_val).short_term_power *
    ((2 ^ (units &&& 0xf) : ℕ) : ℚ))

/-- The requested-or-inherited long-term power, scaled to the register
unit and truncated by int() (undervolt.py lines 316-318). -/
def resolved_long_term_power_int (req : PowerLimitRequest) (units old_val : ℕ) : ℤ :=
  pyInt (req.long_term_power.getD (read_power_limit units old_val).long_term_power *
    ((2 ^ (units &&& 0xf) : ℕ) : ℚ))

/-- The requested-or-inherited short-term time, encoded by from_seconds
(undervolt.py lines 307-309). -/
def resolved_short_term_time_field (req : PowerLimitRequest) (units old_val : ℕ) : Option ℤ :=
  from_seconds (req.short_term_time.getD (read_power_limit units old_val).short_term_time)
    ((2 ^ ((units >>> 16) &&& 0xf) : ℕ) : ℚ)

/-- The requested-or-inherited long-term time, encoded by from_seconds
(undervolt.py lines 324-326). -/
def resolved_long_term_time_field (req : PowerLimitRequest) (units old_val : ℕ) : Option ℤ :=
  from_seconds (req.long_term_time.getD (read_power_limit units old_val).long_term_time)
    ((2 ^ ((units >>> 16) &&& 0xf) : ℕ) : ℚ)

/-- The 64-bit value set_power_limit assembles (undervolt.py lines
293-331): backup_rest | stEnabled << 47 | stPower << 32 | stTime << 49 |
ltEnabled << 15 | ltPower | ltTime << 17 | locked << 63, with the two
already-encoded time fields passed in. -/
def power_limit_write_value (req : PowerLimitRequest) (units old_val : ℕ)
    (short_term_time long_term_time : ℤ) : ℤ :=
  Int.lor
    (Int.lor
      (Int.lor
        (Int.lor
          (Int.lor
            (Int.lor
              (Int.lor ((read_power_limit units old_val).backup_rest : ℤ)
                (pyShiftLeft
                  (if req.short_term_enabled.getD
                      (read_power_limit units old_val).short_term_enabled
                    then 1 else 0) 47))
              (pyShiftLeft (resolved_short_term_power_int req units old_val) 32))
            (pyShiftLeft short_term_time 49))
          (pyShiftLeft
            (if req.long_term_enabled.getD (read_power_limit units old_val).long_term_enabled
              then 1 else 0) 15))
        (resolved_long_term_power_int req units old_val))
      (pyShiftLeft long_term_time 17))
    (pyShiftLeft (if req.locked.getD (read_power_limit units old_val).locked then 1 else 0) 63)

/-- set_power_limit (undervolt.py line 261), as a pure function of the
request and of the register reads it performs: units register, the
pre-write power-limit register value, and the value obtained by the
verification re-read after the write.  The checks run in source order:
locked, short-term power range, short-term time encoding, long-term
power range, long-term time encoding, then the single write followed by
the verification re-read. -/
def set_power_limit (req : PowerLimitRequest) (units old_val readback : ℕ) :
    PowerLimitResult :=
  if (read_power_limit units old_val).locked then ⟨[], PowerLimitOutcome.powerLimitLocked⟩
  else if resolved_short_term_power_int req units old_val < 0 ∨
      0x7fff < resolved_short_term_power_int req units old_val then
    ⟨[], PowerLimitOutcome.powerOutOfRange⟩
  else
    match resolved_short_term_time_field req units old_val with
    | none => ⟨[], PowerLimitOutcome.timeEncodeError⟩
    | some short_term_time =>
      if resolved_long_term_power_int req units old_val < 0 ∨
          0x7fff < resolved_long_term_power_int req units old_val then
        ⟨[], PowerLimitOutcome.powerOutOfRange⟩
      else
        match resolved_long_term_time_field req units old_val with
        | none => ⟨[], PowerLimitOutcome.timeEncodeError⟩
        | some long_term_time =>
          if (readback : ℤ) ≠ power_limit_write_value req units old_val
              short_term_time long_term_time then
            ⟨[power_limit_write_value req units old_val short_term_time long_term_time],
              PowerLimitOutcome.verificationFailed
                (power_limit_write_value req units old_val short_term_time long_term_time)
                readback⟩
          else
            ⟨[power_limit_write_value req units old_val short_term_time long_term_time],
              PowerLimitOutcome.ok⟩

/-! ## Bitwise toolkit -/

/-- Left shifts distribute over bitwise and. -/
theorem shiftLeft_land_shiftLeft (a b s : ℕ) :
    (a <<< s) &&& (b <<< s) = (a &&& b) <<< s := by
  apply Nat.eq_of_testBit_eq
  intro j
  simp only [Nat.testBit_land, Nat.testBit_shiftLeft]
  cases hd : decide (j ≥ s) <;> simp

/-- Bitwise difference from a low mask is the complement of the masked
low bits. -/
theorem ldiff_mask_eq_xor (k m : ℕ) :
    Nat.ldiff (2^k - 1) m = (2^k - 1) ^^^ (m &&& (2^k - 1)) := by
  apply Nat.eq_of_testBit_eq
  intro j
  simp only [Nat.testBit_ldiff, Nat.testBit_xor, Nat.testBit_land,
    Nat.testBit_two_pow_sub_one]
  cases hd : decide (j < k) <;> cases hb : Nat.testBit m j <;> simp

/-- On a number below the power of two, xor with the all-ones mask is
subtraction from the mask. -/
theorem xor_pow_two_sub_one (k : ℕ) : ∀ r : ℕ, r < 2^k → (2^k - 1) ^^^ r = 2^k - 1 - r := by
  induction k with
  | zero =>
    intro r hr
    have : r = 0 := by omega
    subst this
    rfl
  | succ k ih =>
    intro r hr
    have hpow : 2^(k+1) = 2 * 2^k := by ring
    have hdiv : (2^(k+1) - 1) / 2 = 2^k - 1 := by omega
    have hxd : ((2^(k+1) - 1) ^^^ r) / 2 = (2^k - 1) ^^^ (r / 2) := by
      rw [Nat.xor_div_two, hdiv]
    have hrdiv : r / 2 < 2^k := by omega
    have hih := ih (r / 2) hrdiv
    have hodd : (2^(k+1) - 1) % 2 = 1 := by omega
    have hpar : ((2^(k+1) - 1) ^^^ r) % 2 = 1 - r % 2 := by
      rcases Nat.mod_two_eq_zero_or_one r with h | h
      · have h1 : ((2^(k+1) - 1) ^^^ r) % 2 = 1 := by
          rw [Nat.xor_mod_two_eq_one]
          intro hiff
          omega
        omega
      · have h1 : ¬(((2^(k+1) - 1) ^^^ r) % 2 = 1) := by
          rw [Nat.xor_mod_two_eq_one]
          intro hne
          exact hne (by omega)
        omega
    have hsplit : (2^(k+1) - 1) ^^^ r =
        2 * (((2^(k+1) - 1) ^^^ r) / 2) + ((2^(k+1) - 1) ^^^ r) % 2 := by
      omega
    rw [hsplit, hxd, hih]
    omega

/-- Bitwise and of natural-number casts computes on ℕ. -/
theorem int_land_natCast (a b : ℕ) : Int.land (a : ℤ) (b : ℤ) = ((a &&& b : ℕ) : ℤ) := rfl

/-- Bitwise or of natural-number casts computes on ℕ. -/
theorem int_lor_natCast (a b : ℕ) : Int.lor (a : ℤ) (b : ℤ) = ((a ||| b : ℕ) : ℤ) := rfl

/-- Arithmetic shift right of a natural-number cast computes on ℕ. -/
theorem int_shiftRight_natCast (a : ℕ) (s : ℕ) :
    Int.shiftRight (a : ℤ) s = ((a >>> s : ℕ) : ℤ) := rfl

/-- Python's x & 0xFFF on an arbitrary integer is x mod 4096 (two's
complement masking). -/
theorem int_land_4095 (x : ℤ) : Int.land x 4095 = x % 4096 := by
  cases x with
  | ofNat n =>
    have h1 : Int.land (Int.ofNat n) 4095 = ((n &&& 4095 : ℕ) : ℤ) := rfl
    rw [h1]
    have h2 : n &&& 4095 = n % 4096 := by
      have := Nat.and_pow_two_sub_one_eq_mod n 12
      norm_num at this
      exact this
    rw [h2]
    show ((n % 4096 : ℕ) : ℤ) = (n : ℤ) % 4096
    omega
  | negSucc m =>
    have h1 : Int.land (Int.negSucc m) 4095 = ((Nat.ldiff 4095 m : ℕ) : ℤ) := rfl
    rw [h1]
    have h2 : Nat.ldiff 4095 m = 4095 ^^^ (m &&& 4095) := by
      have := ldiff_mask_eq_xor 12 m
      norm_num at this
      exact this
    have h3 : m &&& 4095 = m % 4096 := by
      have := Nat.and_pow_two_sub_one_eq_mod m 12
      norm_num at this
      exact this
    have h4 : (4095 : ℕ) ^^^ (m % 4096) = 4095 - m % 4096 := by
      have := xor_pow_two_sub_one 12 (m % 4096) (by omega)
      norm_num at this
      exact this
    rw [h2, h3, h4]
    show ((4095 - m % 4096 : ℕ) : ℤ) = Int.negSucc m % 4096
    have h5 : Int.negSucc m = -(m : ℤ) - 1 := by
      rw [Int.negSucc_eq]
      ring
    rw [h5]
    omega

/-- Closed form of convert_rounded_offset: only the low eleven bits of
the rounded value survive (bit 11 of the 12-bit window is cut off by the
0xFFE00000 mask), left-aligned at bit 21. -/
theorem convert_rounded_offset_eq (x : ℤ) :
    convert_rounded_offset x = x % 2048 * 2^21 := by
  rw [convert_rounded_offset, int_land_4095]
  have ha : 0 ≤ x % 4096 := Int.emod_nonneg x (by norm_num)
  have ha' : x % 4096 < 4096 := Int.emod_lt_of_pos x (by norm_num)
  rw [pyShiftLeft]
  have hb : x % 2048 = (x % 4096) % 2048 := by omega
  rw [hb]
  lift x % 4096 to ℕ using ha with n hn
  have hn' : n < 4096 := by exact_mod_cast ha'
  have h1 : ((n : ℤ) * 2^21) = ((n * 2^21 : ℕ) : ℤ) := by push_cast; ring
  rw [h1]
  rw [show (0xFFE00000 : ℤ) = ((0xFFE00000 : ℕ) : ℤ) from rfl]
  rw [int_land_natCast]
  have h2 : 0xFFE00000 &&& (n * 2^21) = (n % 2048) * 2^21 := by
    have e1 : n * 2^21 = n <<< 21 := (Nat.shiftLeft_eq n 21).symm
    have e2 : (0xFFE00000 : ℕ) = 2047 <<< 21 := by norm_num [Nat.shiftLeft_eq]
    rw [e1, e2, shiftLeft_land_shiftLeft, Nat.shiftLeft_eq]
    have e3 : 2047 &&& n = n % 2048 := by
      rw [Nat.and_comm]
      have := Nat.and_pow_two_sub_one_eq_mod n 11
      norm_num at this
      exact this
    rw [e3]
  rw [h2]
  push_cast
  ring

/-- Unfolded form of unconvert_rounded_offset. -/
theorem unconvert_rounded_offset_def (y : ℤ) :
    unconvert_rounded_offset y =
      if Int.shiftRight y 21 ≤ 1024 then Int.shiftRight y 21
      else -(2048 - Int.shiftRight y 21) := rfl

/-- Closed form of the round trip of the rounded-offset codec. -/
theorem unconvert_convert_rounded (x : ℤ) :
    unconvert_rounded_offset (convert_rounded_offset x) =
      (if x % 2048 ≤ 1024 then x % 2048 else x % 2048 - 2048) := by
  rw [convert_rounded_offset_eq, unconvert_rounded_offset_def]
  have ha : 0 ≤ x % 2048 := Int.emod_nonneg x (by norm_num)
  have ha' : x % 2048 < 2048 := Int.emod_lt_of_pos x (by norm_num)
  lift x % 2048 to ℕ using ha with n hn
  have h1 : ((n : ℤ) * 2^21) = ((n * 2^21 : ℕ) : ℤ) := by push_cast; ring
  rw [h1, int_shiftRight_natCast]
  have h2 : (n * 2^21) >>> 21 = n := by
    rw [Nat.shiftRight_eq_div_pow]
    exact Nat.mul_div_cancel n (by norm_num)
  rw [h2]
  split <;> omega

/-- Rounding a rational that is an integer returns that integer. -/
theorem pyRound_intCast (z : ℤ) : pyRound (z : ℚ) = z := by
  rw [pyRound]
  have h : ⌊(z : ℚ)⌋ = z := Int.floor_intCast z
  rw [h]
  have h2 : (z : ℚ) - (z : ℚ) = 0 := by ring
  rw [if_pos]
  rw [h2]
  norm_num

/-! ## Voltage-offset codec claims -/

/-- C1: for every millivolt input x, the voltage-offset round trip is
idempotent on the encoder's own output:
toRawOffset(fromRawOffset(toRawOffset(x))) equals toRawOffset(x), so the
composite is a projection onto representable raw values. -/
theorem C1_offset_projection (x : ℚ) :
    convert_offset (unconvert_offset (convert_offset x)) = convert_offset x := by
  simp only [convert_offset, unconvert_offset]
  have h1 : (unconvert_rounded_offset (convert_rounded_offset (pyRound (x * 1.024))) : ℚ) /
      1.024 * 1.024 =
      (unconvert_rounded_offset (convert_rounded_offset (pyRound (x * 1.024))) : ℚ) := by
    field_simp
  rw [h1, pyRound_intCast, unconvert_convert_rounded, convert_rounded_offset_eq,
    convert_rounded_offset_eq]
  split <;> omega

/-- C3 counterexample: a millivolt offset whose rounded scaled value
(3072 = round(3000*1.024)) overflows the 12-bit signed field is not
rejected; it is silently truncated by the 0xFFF/0xFFE00000 masks and
aliases the command payload of -1000 mV. -/
theorem C3_counterexample :
    convert_offset 3000 = 0x80000000 ∧ convert_offset (-1000) = 0x80000000 := by
  constructor
  · rw [convert_offset]
    have h : pyRound ((3000 : ℚ) * 1.024) = 3072 := by decide
    rw [h, convert_rounded_offset_eq]
    decide
  · rw [convert_offset]
    have h : pyRound ((-1000 : ℚ) * 1.024) = -1024 := by decide
    rw [h, convert_rounded_offset_eq]
    decide

/-- C3 amended: the encoder never rejects an out-of-range rounded value;
convert_rounded_offset depends on its argument only modulo 2048, so any
value overflowing the field is silently wrapped into the 11-bit window
(no OffsetOutOfRange path exists in the source). -/
theorem C3_amended_silent_truncation (x : ℤ) :
    convert_rounded_offset x = convert_rounded_offset (x % 2048) := by
  rw [convert_rounded_offset_eq, convert_rounded_offset_eq]
  omega

/-- C8: the exact voltage-offset codec fixtures:
toRawOffset(-50) = 0xf9a00000, fromRawOffset(0xf0000000) = -125.0, and
fromRawOffset(0xf9a00000) = -49.8046875. -/
theorem C8_exact_fixtures :
    convert_offset (-50) = 0xf9a00000 ∧
      unconvert_offset 0xf0000000 = -125 ∧
      unconvert_offset 0xf9a00000 = -49.8046875 := by
  refine ⟨?_, by decide, by decide⟩
  rw [convert_offset]
  have h : pyRound ((-50 : ℚ) * 1.024) = -51 := by decide
  rw [h, convert_rounded_offset_eq]
  decide

/-- C9: the mailbox command/response word fixtures: the three
buildCommand layouts (write to plane 0, write to plane 1, read from
plane 0 with write-flag clear and zero offset field) and the two
parseResponse fixtures (response 0 decodes to plane 0 and 0.0 mV;
response 0x100f3400000 decodes to -99.609375 mV). -/
theorem C9_command_layout :
    pack_offset 0 (some 0xecc00000) = 0x80000011ecc00000 ∧
      pack_offset 1 (some 0xf0000000) = 0x80000111f0000000 ∧
      pack_offset 0 none = 0x8000001000000000 ∧
      response_plane 0 = 0 ∧ unpack_offset 0 = 0 ∧
      unpack_offset 0x100f3400000 = -99.609375 := by
  refine ⟨by decide, by decide, by decide, by decide, by decide, by decide⟩

/-- C10: the rounded-offset codec inverts exactly on the window
[-1023, 1024] and only there: -1024 encodes to the same raw value as
+1024 and decodes back to +1024, so it does not round-trip. -/
theorem C10_rounded_roundtrip_window :
    (∀ x : ℤ, -1023 ≤ x → x ≤ 1024 →
        unconvert_rounded_offset (convert_rounded_offset x) = x) ∧
      convert_rounded_offset (-1024) = convert_rounded_offset 1024 ∧
      unconvert_rounded_offset (convert_rounded_offset (-1024)) = 1024 := by
  refine ⟨fun x h1 h2 => ?_, ?_, ?_⟩
  · rw [unconvert_convert_rounded]
    split <;> omega
  · rw [convert_rounded_offset_eq, convert_rounded_offset_eq]
    decide
  · rw [unconvert_convert_rounded]
    decide

/-- C10 witness: the round-trip identity holds at the concrete in-window
inputs -5 and 1024. -/
theorem C10_rounded_roundtrip_window_witness :
    unconvert_rounded_offset (convert_rounded_offset (-5)) = -5 ∧
      unconvert_rounded_offset (convert_rounded_offset 1024) = 1024 :=
  ⟨C10_rounded_roundtrip_window.1 (-5) (by norm_num) (by norm_num),
    C10_rounded_roundtrip_window.1 1024 (by norm_num) (by norm_num)⟩

/-! ## Time-codec analysis -/

/-- Characterization of the fuel-driven binary logarithm: on inputs
within the fuel bound it computes the floor of log2. -/
theorem log2fuel_char (fuel : ℕ) : ∀ n : ℕ, 0 < n → n < 2^fuel →
    2^(log2fuel fuel n) ≤ n ∧ n < 2^(log2fuel fuel n + 1) := by
  induction fuel with
  | zero =>
    intro n h1 h2
    norm_num at h2
    omega
  | succ fuel ih =>
    intro n h1 h2
    rw [log2fuel]
    split
    case isTrue h =>
      have hpow : 2^(fuel+1) = 2 * 2^fuel := by ring
      have hd1 : 0 < n / 2 := by omega
      have hd2 : n / 2 < 2^fuel := by omega
      obtain ⟨ih1, ih2⟩ := ih (n / 2) hd1 hd2
      have e1 : 2^(log2fuel fuel (n/2) + 1) = 2 * 2^(log2fuel fuel (n/2)) := by ring
      have e2 : 2^(log2fuel fuel (n/2) + 1 + 1) = 2 * 2^(log2fuel fuel (n/2) + 1) := by ring
      omega
    case isFalse h =>
      have : n = 1 := by omega
      subst this
      norm_num

/-- Characterization of floorLog2 on positive inputs below 2^64. -/
theorem floorLog2_char (n : ℕ) (h1 : 0 < n) (h2 : n < 2^64) :
    2^(floorLog2 n) ≤ n ∧ n < 2^(floorLog2 n + 1) :=
  log2fuel_char 64 n h1 h2

/-- For a rational at least 1 (and within the range the codec meets),
truncLog2 is nonnegative and is the floor of the base-2 logarithm. -/
theorem truncLog2_char_ge_one (q : ℚ) (h1 : 1 ≤ q) (h2 : q < 2^60) :
    0 ≤ truncLog2 q ∧
      (2:ℚ)^(truncLog2 q) ≤ q ∧ q < (2:ℚ)^(truncLog2 q + 1) := by
  rw [truncLog2, if_pos h1]
  have hf1 : (1:ℤ) ≤ ⌊q⌋ := by
    rw [Int.le_floor]
    exact_mod_cast h1
  have hfq : (⌊q⌋ : ℚ) ≤ q := Int.floor_le q
  have hq1 : q < ⌊q⌋ + 1 := Int.lt_floor_add_one q
  have hn1 : 0 < ⌊q⌋.toNat := by omega
  have hn2 : ⌊q⌋.toNat < 2^64 := by
    have hx : (⌊q⌋ : ℚ) < 2^60 := lt_of_le_of_lt hfq h2
    have hy : ⌊q⌋ < 2^60 := by exact_mod_cast hx
    omega
  obtain ⟨hc1, hc2⟩ := floorLog2_char ⌊q⌋.toNat hn1 hn2
  have htn : (⌊q⌋.toNat : ℤ) = ⌊q⌋ := by omega
  refine ⟨by positivity, ?_, ?_⟩
  · rw [zpow_natCast]
    have hq2 : ((2 ^ floorLog2 ⌊q⌋.toNat : ℕ) : ℚ) ≤ ((⌊q⌋.toNat : ℕ) : ℚ) := by
      exact_mod_cast hc1
    have h3 : ((⌊q⌋.toNat : ℕ) : ℚ) = ((⌊q⌋ : ℤ) : ℚ) := by exact_mod_cast htn
    push_cast at hq2
    rw [h3] at hq2
    linarith
  · have hsum : ((floorLog2 ⌊q⌋.toNat : ℤ)) + 1 = ((floorLog2 ⌊q⌋.toNat + 1 : ℕ) : ℤ) := by
      push_cast
      ring
    rw [hsum, zpow_natCast]
    have hc2z : (⌊q⌋ : ℤ) < 2 ^ (floorLog2 ⌊q⌋.toNat + 1) := by
      rw [← htn]
      exact_mod_cast hc2
    have hle : ⌊q⌋ + 1 ≤ 2 ^ (floorLog2 ⌊q⌋.toNat + 1) := Int.add_one_le_iff.mpr hc2z
    have hleq : ((⌊q⌋ : ℤ) : ℚ) + 1 ≤ ((2 ^ (floorLog2 ⌊q⌋.toNat + 1) : ℤ) : ℚ) := by
      exact_mod_cast hle
    push_cast at hleq ⊢
    linarith

/-- Between one half and one, truncLog2 is zero: int() truncates the
negative logarithm toward zero. -/
theorem truncLog2_half_one (q : ℚ) (h1 : 1/2 < q) (h2 : q < 1) : truncLog2 q = 0 := by
  rw [truncLog2, if_neg (by linarith)]
  have hq0 : 0 < q := by linarith
  have hfloor : ⌊q⁻¹⌋ = 1 := by
    have hinv : q⁻¹ = 1 / q := (one_div q).symm
    rw [Int.floor_eq_iff]
    push_cast
    rw [hinv]
    constructor
    · rw [le_div_iff₀ hq0]
      linarith
    · rw [div_lt_iff₀ hq0]
      linarith
  rw [hfloor]
  rfl

/-- The exponent clamp only enforces the upper bound 0x1f. -/
theorem candExp_le_31 (vm : ℚ) : candExp vm ≤ 31 := by
  rw [candExp]
  split <;> omega

/-- For arguments above one half (as produced by any scaled value at
least 1 under the four multipliers), the truncated exponent is never
negative, so the missing lower clamp is not exercised. -/
theorem candExp_nonneg (vm : ℚ) (hlo : 1/2 < vm) (hhi : vm < 2^60) : 0 ≤ candExp vm := by
  rcases le_or_lt 1 vm with h1 | h1
  · obtain ⟨hz, _, _⟩ := truncLog2_char_ge_one vm h1 hhi
    rw [candExp, candExpRound]
    split
    · split <;> omega
    · split <;> omega
  · have he0 : truncLog2 vm = 0 := truncLog2_half_one vm hlo h1
    rw [candExp, candExpRound, he0]
    split
    · split <;> omega
    · split <;> omega

/-- The central error bound of the exponent search: for an argument in
(1/2, 2^24), the selected exponent lies in [0, 24] (the upper clamp
never fires) and the selected power of two is within half a step of the
argument. -/
theorem candExp_bound (vm : ℚ) (hlo : 1/2 < vm) (hhi : vm < 2^24) :
    0 ≤ candExp vm ∧ candExp vm ≤ 24 ∧
      |(2:ℚ)^(candExp vm) - vm| ≤ (2:ℚ)^(candExp vm - 1) := by
  rcases le_or_lt 1 vm with h1 | h1
  · obtain ⟨hz, hc1, hc2⟩ := truncLog2_char_ge_one vm h1 (by norm_num; linarith)
    have he023 : truncLog2 vm ≤ 23 := by
      by_contra hcon
      push_neg at hcon
      have h24 : (2:ℚ)^(24:ℤ) ≤ (2:ℚ)^(truncLog2 vm) := by
        apply zpow_le_zpow_right₀ one_le_two
        omega
      have : (2:ℚ)^(24:ℤ) = 2^24 := by norm_num
      linarith
    by_cases hr : (2:ℚ)^(truncLog2 vm + 1) - vm ≤ vm - (2:ℚ)^(truncLog2 vm)
    · have hcr : candExpRound vm = truncLog2 vm + 1 := by
        rw [candExpRound, if_pos hr]
      have hce : candExp vm = truncLog2 vm + 1 := by
        rw [candExp, hcr, if_neg (by omega)]
      rw [hce]
      refine ⟨by omega, by omega, ?_⟩
      have h2e : (2:ℚ)^(truncLog2 vm + 1) = 2 * (2:ℚ)^(truncLog2 vm) := by
        rw [zpow_add_one₀ two_ne_zero]
        ring
      have habs : |(2:ℚ)^(truncLog2 vm + 1) - vm| = (2:ℚ)^(truncLog2 vm + 1) - vm :=
        abs_of_nonneg (by linarith)
      have hexp : truncLog2 vm + 1 - 1 = truncLog2 vm := by ring
      rw [habs, hexp]
      linarith
    · have hcr : candExpRound vm = truncLog2 vm := by
        rw [candExpRound, if_neg hr]
      have hce : candExp vm = truncLog2 vm := by
        rw [candExp, hcr, if_neg (by omega)]
      rw [hce]
      refine ⟨by omega, by omega, ?_⟩
      push_neg at hr
      have h2e : (2:ℚ)^(truncLog2 vm + 1) = 2 * (2:ℚ)^(truncLog2 vm) := by
        rw [zpow_add_one₀ two_ne_zero]
        ring
      have hm1 : (2:ℚ)^(truncLog2 vm - 1) = (2:ℚ)^(truncLog2 vm) / 2 := by
        rw [zpow_sub_one₀ two_ne_zero]
        ring
      have habs : |(2:ℚ)^(truncLog2 vm) - vm| = vm - (2:ℚ)^(truncLog2 vm) := by
        rw [abs_sub_comm]
        exact abs_of_nonneg (by linarith)
      rw [habs, hm1]
      linarith
  · have he0 : truncLog2 vm = 0 := truncLog2_half_one vm hlo h1
    have hz0 : (2:ℚ)^(0:ℤ) = 1 := by norm_num
    have hz1 : (2:ℚ)^(0+1:ℤ) = 2 := by norm_num
    have hcr : candExpRound vm = 0 := by
      rw [candExpRound, he0, if_neg]
      rw [hz0, hz1]
      linarith
    have hce : candExp vm = 0 := by
      rw [candExp, hcr]
      norm_num
    rw [hce]
    refine ⟨le_refl 0, by norm_num, ?_⟩
    have hzm : (2:ℚ)^(0 - 1 : ℤ) = 1/2 := by norm_num
    rw [hz0, hzm]
    rw [abs_of_nonneg (by linarith)]
    linarith

/-- The four multipliers lie in [1, 7/4]. -/
theorem candMult_bounds (y : ℤ) (hy0 : 0 ≤ y) (hy3 : y ≤ 3) :
    1 ≤ candMult y ∧ candMult y ≤ 7/4 := by
  rw [candMult]
  have h0 : (0:ℚ) ≤ (y:ℚ) := by exact_mod_cast hy0
  have h3 : (y:ℚ) ≤ 3 := by exact_mod_cast hy3
  constructor <;> linarith

/-- Per-candidate package: for a scaled value in [1, 2^24) each of the
four candidates selects an exponent in [0, 24] whose reconstructed
value is within half of its own quantization step. -/
theorem cand_package (val : ℚ) (h1 : 1 ≤ val) (h2 : val < 2^24) (y : ℤ)
    (hy0 : 0 ≤ y) (hy3 : y ≤ 3) :
    0 ≤ candE val y ∧ candE val y ≤ 24 ∧
      candErr val y ≤ (2:ℚ)^(candE val y - 1) * candMult y := by
  obtain ⟨hm1, hm2⟩ := candMult_bounds y hy0 hy3
  have hm0 : (0:ℚ) < candMult y := by linarith
  have hlo : 1/2 < val / candMult y := by
    rw [lt_div_iff₀ hm0]
    linarith
  have hhi : val / candMult y < 2^24 := by
    have hd : val / candMult y ≤ val := div_le_self (by linarith) hm1
    linarith
  obtain ⟨hb0, hb24, hberr⟩ := candExp_bound (val / candMult y) hlo hhi
  have hceq : candE val y = candExp (val / candMult y) := rfl
  refine ⟨by rw [hceq]; exact hb0, by rw [hceq]; exact hb24, ?_⟩
  rw [candErr, candBack, hceq]
  have hfact : (2:ℚ)^(candExp (val / candMult y)) * candMult y - val =
      ((2:ℚ)^(candExp (val / candMult y)) - val / candMult y) * candMult y := by
    field_simp
  rw [hfact, abs_mul, abs_of_pos hm0]
  exact mul_le_mul_of_nonneg_right hberr (le_of_lt hm0)

/-- Bit arithmetic of the 7-bit field: composing and decomposing
y << 5 | e for the in-range exponents and multnever selectors. -/
theorem natBits_decomp : ∀ a : ℕ, a < 4 → ∀ b : ℕ, b < 32 →
    (32*a) ||| b = 32*a + b ∧ (32*a + b) &&& 31 = b ∧ ((32*a + b) >>> 5) &&& 3 = a := by
  decide

/-- For in-range exponents the encoded field is 32*y + e. -/
theorem candField_eq (val : ℚ) (y : ℤ) (hy0 : 0 ≤ y) (hy3 : y ≤ 3)
    (he0 : 0 ≤ candE val y) (he31 : candE val y ≤ 31) :
    candField val y = 32 * y + candE val y := by
  rw [candField]
  lift y to ℕ using hy0 with a
  lift candE val (a:ℤ) to ℕ using he0 with b hb
  have ha : a < 4 := by
    have h : (a:ℤ) ≤ 3 := hy3
    omega
  have hb32 : b < 32 := by
    have h : (b:ℤ) ≤ 31 := he31
    omega
  have h1 : pyShiftLeft (a:ℤ) 5 = ((32*a : ℕ) : ℤ) := by
    rw [pyShiftLeft]
    push_cast
    ring
  rw [h1, int_lor_natCast, (natBits_decomp a ha b hb32).1]
  push_cast
  ring

/-- Decoding a well-formed field recovers the exponent and multiplier. -/
theorem to_secondsVal_eq (y e : ℤ) (hy0 : 0 ≤ y) (hy3 : y ≤ 3) (he0 : 0 ≤ e) (he31 : e ≤ 31) :
    to_secondsVal (32*y + e) = (2:ℚ)^e * candMult y := by
  lift y to ℕ using hy0 with a
  lift e to ℕ using he0 with b
  have ha : a < 4 := by
    have : (a:ℤ) ≤ 3 := hy3
    omega
  have hb32 : b < 32 := by
    have : (b:ℤ) ≤ 31 := he31
    omega
  have h1 : (32*(a:ℤ) + (b:ℤ)) = ((32*a + b : ℕ) : ℤ) := by push_cast; ring
  rw [to_secondsVal, h1]
  rw [show (0x1f:ℤ) = ((31:ℕ):ℤ) from rfl, int_land_natCast, int_shiftRight_natCast]
  rw [show (0x3:ℤ) = ((3:ℕ):ℤ) from rfl, int_land_natCast]
  obtain ⟨_, hd1, hd2⟩ := natBits_decomp a ha b hb32
  rw [hd1, hd2, zpow_natCast, candMult]

/-- The quantization step is the decoded value itself (the gap to the
next representable value with the same multiplier). -/
theorem quant_step_eq (field : ℤ) (unit : ℚ) :
    quant_step field unit = to_secondsVal field / unit := rfl

/-- The search fold returns one of the four candidates. -/
theorem foldl_fsStep_good (val : ℚ) (h1 : 1 ≤ val) (h2 : val < 2^24) :
    ∃ y : ℤ, 0 ≤ y ∧ y ≤ 3 ∧
      List.foldl (fsStep val) ((10:ℚ)^9, 0) [0, 1, 2, 3] =
        (candErr val y, candField val y) := by
  have hstep : ∀ (p : ℚ × ℤ) (y : ℤ),
      (∃ y' : ℤ, 0 ≤ y' ∧ y' ≤ 3 ∧ p = (candErr val y', candField val y')) →
      0 ≤ y → y ≤ 3 →
      ∃ y' : ℤ, 0 ≤ y' ∧ y' ≤ 3 ∧ fsStep val p y = (candErr val y', candField val y') := by
    intro p y hp hy0 hy3
    rw [fsStep]
    split
    · exact ⟨y, hy0, hy3, rfl⟩
    · exact hp
  have h0 : fsStep val ((10:ℚ)^9, 0) 0 = (candErr val 0, candField val 0) := by
    rw [fsStep, if_pos]
    obtain ⟨he0, he24, herr⟩ := cand_package val h1 h2 0 (by norm_num) (by norm_num)
    have hm : candMult 0 = 1 := by rw [candMult]; norm_num
    have hub : (2:ℚ)^(candE val 0 - 1) ≤ (2:ℚ)^(23:ℤ) := by
      apply zpow_le_zpow_right₀ one_le_two
      omega
    have h23 : (2:ℚ)^(23:ℤ) = 2^23 := by norm_num
    have hlt : candErr val 0 < 10^9 := by
      rw [hm] at herr
      calc candErr val 0 ≤ (2:ℚ)^(candE val 0 - 1) * 1 := herr
        _ = (2:ℚ)^(candE val 0 - 1) := by ring
        _ ≤ (2:ℚ)^(23:ℤ) := hub
        _ < 10^9 := by rw [h23]; norm_num
    exact hlt
  have hfold : List.foldl (fsStep val) ((10:ℚ)^9, 0) [0,1,2,3] =
      fsStep val (fsStep val (fsStep val (fsStep val ((10:ℚ)^9, 0) 0) 1) 2) 3 := rfl
  rw [hfold, h0]
  obtain ⟨y1, hy10, hy13, he1⟩ :=
    hstep _ 1 ⟨0, by norm_num, by norm_num, rfl⟩ (by norm_num) (by norm_num)
  rw [he1]
  obtain ⟨y2, hy20, hy23, he2⟩ :=
    hstep _ 2 ⟨y1, hy10, hy13, rfl⟩ (by norm_num) (by norm_num)
  rw [he2]
  obtain ⟨y3, hy30, hy33, he3⟩ :=
    hstep _ 3 ⟨y2, hy20, hy23, rfl⟩ (by norm_num) (by norm_num)
  rw [he3]
  exact ⟨y3, hy30, hy33, rfl⟩

/-- Nat.ldiff 3 96 computes to 3 (the bits of 3 minus the bits of 96). -/
theorem ldiff_3_96 : Nat.ldiff 3 96 = 3 := by
  apply Nat.eq_of_testBit_eq
  intro i
  rw [Nat.testBit_ldiff]
  rcases lt_or_ge i 2 with h | h
  · interval_cases i <;> decide
  · have h3 : Nat.testBit 3 i = false := by
      apply Nat.testBit_lt_two_pow
      calc 3 < 2^2 := by norm_num
        _ ≤ 2^i := Nat.pow_le_pow_right (by norm_num) h
    rw [h3]
    rfl

/-- C2: the power-limit time codec: (a) for any positive scaled request
at or beyond the log-scale guard (log2(t*unit/1.75) >= 0x1f, i.e.
t*unit >= 1.75*2^31), from_seconds saturates to the maximum encodable
field 0xfe instead of overflowing; (b) for every time value t in the
realistic range [1, 448] seconds and every unit scale 2^k the units
register can produce (k <= 15), encoding never fails, the encoded field
is a well-formed 7-bit value, and decoding it back lands within one
quantization step of the chosen exponent/multiplier combination. -/
theorem C2_time_codec :
    (∀ t u : ℚ, 0 < t * u → (7/4) * (2:ℚ)^(31:ℕ) ≤ t * u → from_seconds t u = some 0xfe) ∧
      (∀ (t : ℚ) (k : ℕ), 1 ≤ t → t ≤ 448 → k ≤ 15 →
        ∃ f : ℤ, from_seconds t ((2:ℚ)^k) = some f ∧ 0 ≤ f ∧ f ≤ 0x7f ∧
          |to_seconds f ((2:ℚ)^k) - t| ≤ quant_step f ((2:ℚ)^k)) := by
  constructor
  · intro t u h0 hsat
    rw [from_seconds, from_secondsVal, if_neg (not_le.mpr h0), if_pos hsat]
  · intro t k ht1 ht2 hk
    have hu0 : (0:ℚ) < 2^k := by positivity
    have hu1 : (1:ℚ) ≤ 2^k := one_le_pow₀ (by norm_num)
    have hu15 : (2:ℚ)^k ≤ 2^15 := pow_le_pow_right₀ (by norm_num) hk
    have hv1 : 1 ≤ t * 2^k := by
      calc (1:ℚ) = 1 * 1 := by ring
        _ ≤ t * 2^k := mul_le_mul ht1 hu1 (by norm_num) (by linarith)
    have hv2 : t * 2^k < 2^24 := by
      calc t * 2^k ≤ 448 * 2^15 := mul_le_mul ht2 hu15 (by positivity) (by norm_num)
        _ < 2^24 := by norm_num
    obtain ⟨y, hy0, hy3, hfold⟩ := foldl_fsStep_good (t * 2^k) hv1 hv2
    obtain ⟨he0, he24, herr⟩ := cand_package (t * 2^k) hv1 hv2 y hy0 hy3
    obtain ⟨hm1, hm2⟩ := candMult_bounds y hy0 hy3
    have hm0 : (0:ℚ) < candMult y := by linarith
    have hf : from_seconds t ((2:ℚ)^k) = some (candField (t * 2^k) y) := by
      rw [from_seconds, from_secondsVal]
      rw [if_neg (by push_neg; linarith), if_neg (by push_neg; norm_num; linarith)]
      rw [hfold]
    refine ⟨32*y + candE (t * 2^k) y, ?_, by omega, by omega, ?_⟩
    · rw [hf, candField_eq (t * 2^k) y hy0 hy3 he0 (by omega)]
    · have hts : to_seconds (32*y + candE (t * 2^k) y) ((2:ℚ)^k) =
          (2:ℚ)^(candE (t * 2^k) y) * candMult y / 2^k := by
        rw [to_seconds, to_secondsVal_eq y (candE (t * 2^k) y) hy0 hy3 he0 (by omega)]
      have hqs : quant_step (32*y + candE (t * 2^k) y) ((2:ℚ)^k) =
          (2:ℚ)^(candE (t * 2^k) y) * candMult y / 2^k := by
        rw [quant_step_eq, to_secondsVal_eq y (candE (t * 2^k) y) hy0 hy3 he0 (by omega)]
      rw [hts, hqs]
      have hsub : (2:ℚ)^(candE (t * 2^k) y) * candMult y / 2^k - t =
          ((2:ℚ)^(candE (t * 2^k) y) * candMult y - t * 2^k) / 2^k := by
        field_simp
        ring
      rw [hsub, abs_div, abs_of_pos hu0]
      have herr2 : |(2:ℚ)^(candE (t * 2^k) y) * candMult y - t * 2^k| ≤
          (2:ℚ)^(candE (t * 2^k) y - 1) * candMult y := by
        have hh := herr
        rw [candErr, candBack] at hh
        exact hh
      have hmono : (2:ℚ)^(candE (t * 2^k) y - 1) ≤ (2:ℚ)^(candE (t * 2^k) y) :=
        zpow_le_zpow_right₀ one_le_two (by omega)
      have hmul := mul_le_mul_of_nonneg_right hmono (le_of_lt hm0)
      have hnum : |(2:ℚ)^(candE (t * 2^k) y) * candMult y - t * 2^k| ≤
          (2:ℚ)^(candE (t * 2^k) y) * candMult y := by linarith
      exact div_le_div_of_nonneg_right hnum (le_of_lt hu0)

/-- C2 witness: the saturation arm at t = 2^33 with unit 1, and the
round-trip arm at t = 4 seconds with unit 2^0. -/
theorem C2_time_codec_witness :
    from_seconds ((2:ℚ)^33) 1 = some 0xfe ∧
      ∃ f : ℤ, from_seconds 4 ((2:ℚ)^(0:ℕ)) = some f ∧ 0 ≤ f ∧ f ≤ 0x7f ∧
        |to_seconds f ((2:ℚ)^(0:ℕ)) - 4| ≤ quant_step f ((2:ℚ)^(0:ℕ)) :=
  ⟨C2_time_codec.1 ((2:ℚ)^33) 1 (by norm_num) (by norm_num),
    C2_time_codec.2 4 0 (by norm_num) (by norm_num) (by norm_num)⟩

/-- C6 counterexample: for the requested time value 0.1 (unit 1) the
candidate exponent for multiplier 1 is -3 and the encoder returns the
field -4: the source clamps the exponent only above at 0x1f, so a
negative exponent is neither clamped to 0 nor does the returned field
stay a 7-bit value. -/
theorem C6_counterexample :
    candExp (1/10) = -3 ∧ from_secondsVal (1/10) = some (-4) := by
  refine ⟨by decide, ?_⟩
  have h01 : fsStep (1/10) ((10:ℚ)^9, 0) 0 = (candErr (1/10) 0, candField (1/10) 0) := by
    rw [fsStep, if_pos (by decide)]
  have h12 : fsStep (1/10) (candErr (1/10) 0, candField (1/10) 0) 1 =
      (candErr (1/10) 0, candField (1/10) 0) := by
    rw [fsStep, if_neg (by decide)]
  have h23 : fsStep (1/10) (candErr (1/10) 0, candField (1/10) 0) 2 =
      (candErr (1/10) 0, candField (1/10) 0) := by
    rw [fsStep, if_neg (by decide)]
  have h34 : fsStep (1/10) (candErr (1/10) 0, candField (1/10) 0) 3 =
      (candErr (1/10) 3, candField (1/10) 3) := by
    rw [fsStep, if_pos (by decide)]
  have hfold : List.foldl (fsStep (1/10)) ((10:ℚ)^9, 0) [0,1,2,3] =
      fsStep (1/10) (fsStep (1/10) (fsStep (1/10) (fsStep (1/10) ((10:ℚ)^9, 0) 0) 1) 2) 3 := rfl
  rw [from_secondsVal, if_neg (by norm_num), if_neg (by decide), hfold, h01, h12, h23, h34]
  have hcf : candField (1/10) 3 = -4 := by
    rw [candField]
    have hce : candE (1/10) 3 = -4 := by decide
    have hsl : pyShiftLeft 3 5 = (96 : ℤ) := by decide
    rw [hce, hsl]
    have hneg : (-4 : ℤ) = Int.negSucc 3 := rfl
    rw [hneg]
    have hlor : Int.lor 96 (Int.negSucc 3) = Int.negSucc (Nat.ldiff 3 96) := rfl
    rw [hlor, ldiff_3_96]
  rw [hcf]

/-- C6 amended: the source clamps the candidate exponent only above at
0x1f; the lower end of the claimed range [0, 0x1f] holds not by
clamping but because, for any scaled request value of at least one
second-unit (and below the saturation guard), truncation toward zero
keeps every candidate exponent nonnegative. -/
theorem C6_amended_exp_range (val : ℚ) (y : ℤ) (hy0 : 0 ≤ y) (hy3 : y ≤ 3)
    (h1 : 1 ≤ val) (h2 : val < (7/4) * (2:ℚ)^(31:ℕ)) :
    0 ≤ candE val y ∧ candE val y ≤ 0x1f := by
  obtain ⟨hm1, hm2⟩ := candMult_bounds y hy0 hy3
  have hm0 : (0:ℚ) < candMult y := by linarith
  have hlo : 1/2 < val / candMult y := by
    rw [lt_div_iff₀ hm0]
    linarith
  have hhi : val / candMult y < 2^60 := by
    have hd : val / candMult y ≤ val := div_le_self (by linarith) hm1
    have hg : (7/4) * (2:ℚ)^(31:ℕ) < 2^60 := by norm_num
    linarith
  exact ⟨candExp_nonneg (val / candMult y) hlo hhi, candExp_le_31 (val / candMult y)⟩

/-- C6 amended witness: at the concrete request value 4 with multiplier
selector 0 the exponent lies in the range. -/
theorem C6_amended_exp_range_witness : 0 ≤ candE 4 0 ∧ candE 4 0 ≤ 0x1f :=
  C6_amended_exp_range 4 0 (by norm_num) (by norm_num) (by norm_num) (by norm_num)

/-! ## Set-and-verify control flow -/

/-- C5: when the pre-write read decodes the power-limit register's
locked bit (bit 63) as set, set_power_limit fails with the locked error
and issues no register write at all, leaving the register unchanged. -/
theorem C5_lock_enforcement (req : PowerLimitRequest) (units old_val readback : ℕ)
    (h : (old_val >>> 63) &&& 1 = 1) :
    set_power_limit req units old_val readback =
      ⟨[], PowerLimitOutcome.powerLimitLocked⟩ := by
  have hl : (read_power_limit units old_val).locked = true := by
    simp [read_power_limit, h]
  rw [set_power_limit, if_pos hl]

/-- C5 witness: a register value with only bit 63 set is refused. -/
theorem C5_lock_enforcement_witness :
    set_power_limit ⟨none, none, none, none, none, none, some false⟩ 0 (2^63) 0 =
      ⟨[], PowerLimitOutcome.powerLimitLocked⟩ :=
  C5_lock_enforcement ⟨none, none, none, none, none, none, some false⟩ 0 (2^63) 0 (by decide)

/-- Any set_power_limit call either performs no write, or performs
exactly one write and compares the re-read value bit-exactly against
the written one. -/
theorem set_power_limit_cases (req : PowerLimitRequest) (units old_val readback : ℕ) :
    (set_power_limit req units old_val readback).writes = [] ∨
    ∃ wv : ℤ, set_power_limit req units old_val readback =
      ⟨[wv], if (readback : ℤ) ≠ wv then PowerLimitOutcome.verificationFailed wv readback
             else PowerLimitOutcome.ok⟩ := by
  rw [set_power_limit]
  split
  · exact Or.inl rfl
  split
  · exact Or.inl rfl
  split
  · exact Or.inl rfl
  next stt heq =>
    split
    · exact Or.inl rfl
    split
    · exact Or.inl rfl
    next ltt heq2 =>
      refine Or.inr ⟨power_limit_write_value req units old_val stt ltt, ?_⟩
      split
      next h => rfl
      next h => rfl

/-- C7: both setters verify by re-reading and comparing in encoded/raw
form.  For the power limit: whenever a write is issued, the outcome is
ok exactly when the re-read value equals the written 64-bit value
bit-exactly, and any mismatch is reported as a verification failure
carrying the intended and observed values.  For the voltage offset: the
comparison is between the projection of the requested millivolt value
through the lossy encoder (not the raw request) and the decoded re-read
response, and any mismatch is a fatal verification failure carrying
both. -/
theorem C7_write_verification :
    (∀ (req : PowerLimitRequest) (units old_val readback : ℕ) (wv : ℤ),
      (set_power_limit req units old_val readback).writes = [wv] →
        (((readback : ℤ) = wv →
            (set_power_limit req units old_val readback).outcome = PowerLimitOutcome.ok) ∧
          ((readback : ℤ) ≠ wv →
            (set_power_limit req units old_val readback).outcome =
              PowerLimitOutcome.verificationFailed wv readback))) ∧
      (∀ (plane_index : ℤ) (mV : ℚ) (response : ℤ),
        ((unpack_offset response = unconvert_offset (convert_offset mV) →
            (set_offset plane_index mV response).outcome = OffsetOutcome.ok) ∧
          (unpack_offset response ≠ unconvert_offset (convert_offset mV) →
            (set_offset plane_index mV response).outcome =
              OffsetOutcome.verificationFailed (unconvert_offset (convert_offset mV))
                (unpack_offset response)))) := by
  constructor
  · intro req units old_val readback wv hw
    rcases set_power_limit_cases req units old_val readback with h | ⟨wv', he⟩
    · rw [h] at hw
      simp at hw
    · have hww : wv' = wv := by
        rw [he] at hw
        simpa using hw
      subst hww
      constructor
      · intro heq
        rw [he]
        show (if (readback : ℤ) ≠ wv' then PowerLimitOutcome.verificationFailed wv' readback
          else PowerLimitOutcome.ok) = PowerLimitOutcome.ok
        rw [if_neg (fun hc => hc heq)]
      · intro hne
        rw [he]
        show (if (readback : ℤ) ≠ wv' then PowerLimitOutcome.verificationFailed wv' readback
          else PowerLimitOutcome.ok) = PowerLimitOutcome.verificationFailed wv' readback
        rw [if_pos hne]
  · intro plane_index mV response
    constructor
    · intro heq
      show (if unconvert_offset (convert_offset mV) ≠ unpack_offset response then
          OffsetOutcome.verificationFailed (unconvert_offset (convert_offset mV))
            (unpack_offset response)
        else OffsetOutcome.ok) = OffsetOutcome.ok
      rw [if_neg (fun hc => hc heq.symm)]
    · intro hne
      show (if unconvert_offset (convert_offset mV) ≠ unpack_offset response then
          OffsetOutcome.verificationFailed (unconvert_offset (convert_offset mV))
            (unpack_offset response)
        else OffsetOutcome.ok) = OffsetOutcome.verificationFailed
          (unconvert_offset (convert_offset mV)) (unpack_offset response)
      rw [if_pos (Ne.symm hne)]

/-- C7 witness: a fully-specified power-limit request against an
all-zero register whose re-read returns zero fails verification with
the intended and observed values, and an offset write of -50 mV whose
mailbox re-read carries exactly the encoded raw value verifies ok. -/
theorem C7_write_verification_witness :
    (set_power_limit ⟨some true, some 1, some 4, some false, some 1, some 4, some false⟩
        0 0 0).outcome =
      PowerLimitOutcome.verificationFailed 0x4800100040001 0 ∧
    (set_offset 0 (-50) 0xf9a00000).outcome = OffsetOutcome.ok := by
  constructor
  · exact (C7_write_verification.1
      ⟨some true, some 1, some 4, some false, some 1, some 4, some false⟩ 0 0 0
      0x4800100040001 (by decide)).2 (by decide)
  · apply (C7_write_verification.2 0 (-50) 0xf9a00000).1
    rw [convert_offset]
    rw [show pyRound ((-50 : ℚ) * 1.024) = (-51 : ℤ) from by decide]
    rw [convert_rounded_offset_eq]
    decide

/-! ## Reserved-bit and field-extraction machinery for the write word -/

/-- Right shift distributes over bitwise or. -/
theorem lor_shiftRight (x y s : ℕ) : (x ||| y) >>> s = (x >>> s) ||| (y >>> s) := by
  apply Nat.eq_of_testBit_eq
  intro j
  simp [Nat.testBit_shiftRight, Nat.testBit_or]

/-- Bitwise and distributes over bitwise or on the left argument. -/
theorem lor_land (x y m : ℕ) : (x ||| y) &&& m = (x &&& m) ||| (y &&& m) := by
  apply Nat.eq_of_testBit_eq
  intro j
  simp only [Nat.testBit_and, Nat.testBit_or]
  cases x.testBit j <;> cases y.testBit j <;> cases m.testBit j <;> rfl

/-- A bit set in a self-masked value is set in the mask. -/
theorem testBit_of_land_self {f K : ℕ} (hf : f &&& K = f) (j : ℕ)
    (hK : K.testBit j = false) : f.testBit j = false := by
  have h := congrArg (fun x => x.testBit j) hf
  simp only [Nat.testBit_and, hK, Bool.and_false] at h
  exact h.symm

/-- A shifted field whose window misses the extraction window
contributes nothing. -/
theorem field_term_kill {f K : ℕ} (u s m : ℕ) (hf : f &&& K = f)
    (hz : ((K <<< u) >>> s) &&& m = 0) : ((f <<< u) >>> s) &&& m = 0 := by
  apply Nat.eq_of_testBit_eq
  intro j
  have hzj := congrArg (fun x => x.testBit j) hz
  simp only [Nat.testBit_and, Nat.testBit_shiftRight, Nat.testBit_shiftLeft,
    Nat.zero_testBit] at hzj ⊢
  cases hd : decide (s + j ≥ u) with
  | false => simp [hd]
  | true =>
    simp only [hd, Bool.true_and] at hzj ⊢
    cases hK : K.testBit (s + j - u) with
    | false => rw [testBit_of_land_self hf _ hK]; rfl
    | true =>
      simp only [hK, Bool.true_and] at hzj
      rw [hzj, Bool.and_false]

/-- Unshifted-extraction version of field_term_kill. -/
theorem field_term_kill0 {f K : ℕ} (u m : ℕ) (hf : f &&& K = f)
    (hz : (K <<< u) &&& m = 0) : (f <<< u) &&& m = 0 := by
  have h := field_term_kill u 0 m hf (by rw [Nat.shiftRight_zero]; exact hz)
  rwa [Nat.shiftRight_zero] at h

/-- Unshifted-field version of field_term_kill. -/
theorem field_term_kill_noshift {f K : ℕ} (s m : ℕ) (hf : f &&& K = f)
    (hz : (K >>> s) &&& m = 0) : (f >>> s) &&& m = 0 := by
  have h := field_term_kill 0 s m hf (by rw [Nat.shiftLeft_zero]; exact hz)
  rwa [Nat.shiftLeft_zero] at h

/-- A self-masked value masked by something disjoint from its mask is
zero. -/
theorem land_kill {f K m : ℕ} (hf : f &&& K = f) (hz : K &&& m = 0) : f &&& m = 0 := by
  calc f &&& m = (f &&& K) &&& m := by rw [hf]
    _ = f &&& (K &&& m) := Nat.and_assoc f K m
    _ = f &&& 0 := by rw [hz]
    _ = 0 := Nat.and_zero f

/-- Extracting a self-masked field from its own window recovers it. -/
theorem field_term_live (f m s : ℕ) (hf : f &&& m = f) : ((f <<< s) >>> s) &&& m = f := by
  have h1 : (f <<< s) >>> s = f := by
    rw [Nat.shiftLeft_eq, Nat.shiftRight_eq_div_pow]
    exact Nat.mul_div_cancel f (Nat.two_pow_pos s)
  rw [h1, hf]

/-- The reserved-bits backup contributes nothing to a field window
disjoint from the reserved mask. -/
theorem backup_term_kill (old M s m : ℕ) (hz : (M >>> s) &&& m = 0) :
    ((old &&& M) >>> s) &&& m = 0 := by
  apply Nat.eq_of_testBit_eq
  intro j
  have hzj := congrArg (fun x => x.testBit j) hz
  simp only [Nat.testBit_and, Nat.testBit_shiftRight, Nat.zero_testBit] at hzj ⊢
  cases hM : M.testBit (s + j) with
  | false => simp [hM]
  | true =>
    simp only [hM, Bool.true_and] at hzj
    rw [hzj]
    simp

/-- Unshifted version of backup_term_kill. -/
theorem backup_term_kill0 (old M m : ℕ) (hz : M &&& m = 0) : (old &&& M) &&& m = 0 := by
  rw [Nat.and_assoc, hz, Nat.and_zero]

/-- The write word of set_power_limit at the level of natural numbers:
the reserved bits survive unchanged and each bounded field is recovered
from its own window. -/
theorem natW_spec (old e47 stp stt e15 ltp ltt lk W : ℕ)
    (hW : W = (old &&& 0x7f010000ff010000) ||| (e47 <<< 47) ||| (stp <<< 32) |||
      (stt <<< 49) ||| (e15 <<< 15) ||| ltp ||| (ltt <<< 17) ||| (lk <<< 63))
    (he47 : e47 ≤ 1) (hstp : stp ≤ 0x7fff) (hstt : stt ≤ 0x7f) (he15 : e15 ≤ 1)
    (hltp : ltp ≤ 0x7fff) (hltt : ltt ≤ 0x7f) (hlk : lk ≤ 1) :
    W &&& 0x7f010000ff010000 = old &&& 0x7f010000ff010000 ∧
    (W >>> 47) &&& 1 = e47 ∧ (W >>> 32) &&& 0x7fff = stp ∧ (W >>> 49) &&& 0x7f = stt ∧
    (W >>> 15) &&& 1 = e15 ∧ W &&& 0x7fff = ltp ∧ (W >>> 17) &&& 0x7f = ltt ∧
    (W >>> 63) &&& 1 = lk := by
  subst hW
  have hfe47 : e47 &&& 1 = e47 := by
    rw [Nat.and_one_is_mod]
    omega
  have hfstp : stp &&& 0x7fff = stp := by
    have h := Nat.and_pow_two_sub_one_eq_mod stp 15
    norm_num at h
    omega
  have hfstt : stt &&& 0x7f = stt := by
    have h := Nat.and_pow_two_sub_one_eq_mod stt 7
    norm_num at h
    omega
  have hfe15 : e15 &&& 1 = e15 := by
    rw [Nat.and_one_is_mod]
    omega
  have hfltp : ltp &&& 0x7fff = ltp := by
    have h := Nat.and_pow_two_sub_one_eq_mod ltp 15
    norm_num at h
    omega
  have hfltt : ltt &&& 0x7f = ltt := by
    have h := Nat.and_pow_two_sub_one_eq_mod ltt 7
    norm_num at h
    omega
  have hflk : lk &&& 1 = lk := by
    rw [Nat.and_one_is_mod]
    omega
  refine ⟨?_, ?_, ?_, ?_, ?_, ?_, ?_, ?_⟩
  · -- reserved mask preserved
    have ke47 : ((e47 <<< 47) &&& 0x7f010000ff010000) = 0 := field_term_kill0 47 0x7f010000ff010000 hfe47 (by decide)
    have kstp : ((stp <<< 32) &&& 0x7f010000ff010000) = 0 := field_term_kill0 32 0x7f010000ff010000 hfstp (by decide)
    have kstt : ((stt <<< 49) &&& 0x7f010000ff010000) = 0 := field_term_kill0 49 0x7f010000ff010000 hfstt (by decide)
    have ke15 : ((e15 <<< 15) &&& 0x7f010000ff010000) = 0 := field_term_kill0 15 0x7f010000ff010000 hfe15 (by decide)
    have kltp : (ltp &&& 0x7f010000ff010000) = 0 := land_kill hfltp (by decide)
    have kltt : ((ltt <<< 17) &&& 0x7f010000ff010000) = 0 := field_term_kill0 17 0x7f010000ff010000 hfltt (by decide)
    have klk : ((lk <<< 63) &&& 0x7f010000ff010000) = 0 := field_term_kill0 63 0x7f010000ff010000 hflk (by decide)
    simp only [lor_land]
    rw [ke47, kstp, kstt, ke15, kltp, kltt, klk]
    simp [Nat.and_assoc]
  · -- short-term enabled bit
    have kb : (((old &&& 0x7f010000ff010000) >>> 47) &&& 1) = 0 := backup_term_kill old 0x7f010000ff010000 47 1 (by decide)
    have kstp : (((stp <<< 32) >>> 47) &&& 1) = 0 := field_term_kill 32 47 1 hfstp (by decide)
    have kstt : (((stt <<< 49) >>> 47) &&& 1) = 0 := field_term_kill 49 47 1 hfstt (by decide)
    have ke15 : (((e15 <<< 15) >>> 47) &&& 1) = 0 := field_term_kill 15 47 1 hfe15 (by decide)
    have kltp : ((ltp >>> 47) &&& 1) = 0 := field_term_kill_noshift 47 1 hfltp (by decide)
    have kltt : (((ltt <<< 17) >>> 47) &&& 1) = 0 := field_term_kill 17 47 1 hfltt (by decide)
    have klk : (((lk <<< 63) >>> 47) &&& 1) = 0 := field_term_kill 63 47 1 hflk (by decide)
    have lv : (((e47 <<< 47) >>> 47) &&& 1) = e47 := field_term_live e47 1 47 hfe47
    simp only [lor_shiftRight, lor_land]
    rw [kb, kstp, kstt, ke15, kltp, kltt, klk, lv]
    simp
  · -- short-term power field
    have kb : (((old &&& 0x7f010000ff010000) >>> 32) &&& 0x7fff) = 0 := backup_term_kill old 0x7f010000ff010000 32 0x7fff (by decide)
    have ke47 : (((e47 <<< 47) >>> 32) &&& 0x7fff) = 0 := field_term_kill 47 32 0x7fff hfe47 (by decide)
    have kstt : (((stt <<< 49) >>> 32) &&& 0x7fff) = 0 := field_term_kill 49 32 0x7fff hfstt (by decide)
    have ke15 : (((e15 <<< 15) >>> 32) &&& 0x7fff) = 0 := field_term_kill 15 32 0x7fff hfe15 (by decide)
    have kltp : ((ltp >>> 32) &&& 0x7fff) = 0 := field_term_kill_noshift 32 0x7fff hfltp (by decide)
    have kltt : (((ltt <<< 17) >>> 32) &&& 0x7fff) = 0 := field_term_kill 17 32 0x7fff hfltt (by decide)
    have klk : (((lk <<< 63) >>> 32) &&& 0x7fff) = 0 := field_term_kill 63 32 0x7fff hflk (by decide)
    have lv : (((stp <<< 32) >>> 32) &&& 0x7fff) = stp := field_term_live stp 0x7fff 32 hfstp
    simp only [lor_shiftRight, lor_land]
    rw [kb, ke47, kstt, ke15, kltp, kltt, klk, lv]
    simp
  · -- short-term time field
    have kb : (((old &&& 0x7f010000ff010000) >>> 49) &&& 0x7f) = 0 := backup_term_kill old 0x7f010000ff010000 49 0x7f (by decide)
    have ke47 : (((e47 <<< 47) >>> 49) &&& 0x7f) = 0 := field_term_kill 47 49 0x7f hfe47 (by decide)
    have kstp : (((stp <<< 32) >>> 49) &&& 0x7f) = 0 := field_term_kill 32 49 0x7f hfstp (by decide)
    have ke15 : (((e15 <<< 15) >>> 49) &&& 0x7f) = 0 := field_term_kill 15 49 0x7f hfe15 (by decide)
    have kltp : ((ltp >>> 49) &&& 0x7f) = 0 := field_term_kill_noshift 49 0x7f hfltp (by decide)
    have kltt : (((ltt <<< 17) >>> 49) &&& 0x7f) = 0 := field_term_kill 17 49 0x7f hfltt (by decide)
    have klk : (((lk <<< 63) >>> 49) &&& 0x7f) = 0 := field_term_kill 63 49 0x7f hflk (by decide)
    have lv : (((stt <<< 49) >>> 49) &&& 0x7f) = stt := field_term_live stt 0x7f 49 hfstt
    simp only [lor_shiftRight, lor_land]
    rw [kb, ke47, kstp, ke15, kltp, kltt, klk, lv]
    simp
  · -- long-term enabled bit
    have kb : (((old &&& 0x7f010000ff010000) >>> 15) &&& 1) = 0 := backup_term_kill old 0x7f010000ff010000 15 1 (by decide)
    have ke47 : (((e47 <<< 47) >>> 15) &&& 1) = 0 := field_term_kill 47 15 1 hfe47 (by decide)
    have kstp : (((stp <<< 32) >>> 15) &&& 1) = 0 := field_term_kill 32 15 1 hfstp (by decide)
    have kstt : (((stt <<< 49) >>> 15) &&& 1) = 0 := field_term_kill 49 15 1 hfstt (by decide)
    have kltp : ((ltp >>> 15) &&& 1) = 0 := field_term_kill_noshift 15 1 hfltp (by decide)
    have kltt : (((ltt <<< 17) >>> 15) &&& 1) = 0 := field_term_kill 17 15 1 hfltt (by decide)
    have klk : (((lk <<< 63) >>> 15) &&& 1) = 0 := field_term_kill 63 15 1 hflk (by decide)
    have lv : (((e15 <<< 15) >>> 15) &&& 1) = e15 := field_term_live e15 1 15 hfe15
    simp only [lor_shiftRight, lor_land]
    rw [kb, ke47, kstp, kstt, kltp, kltt, klk, lv]
    simp
  · -- long-term power field
    have kb : ((old &&& 0x7f010000ff010000) &&& 0x7fff) = 0 := backup_term_kill0 old 0x7f010000ff010000 0x7fff (by decide)
    have ke47 : ((e47 <<< 47) &&& 0x7fff) = 0 := field_term_kill0 47 0x7fff hfe47 (by decide)
    have kstp : ((stp <<< 32) &&& 0x7fff) = 0 := field_term_kill0 32 0x7fff hfstp (by decide)
    have kstt : ((stt <<< 49) &&& 0x7fff) = 0 := field_term_kill0 49 0x7fff hfstt (by decide)
    have ke15 : ((e15 <<< 15) &&& 0x7fff) = 0 := field_term_kill0 15 0x7fff hfe15 (by decide)
    have kltt : ((ltt <<< 17) &&& 0x7fff) = 0 := field_term_kill0 17 0x7fff hfltt (by decide)
    have klk : ((lk <<< 63) &&& 0x7fff) = 0 := field_term_kill0 63 0x7fff hflk (by decide)
    simp only [lor_land]
    rw [kb, ke47, kstp, kstt, ke15, kltt, klk]
    rw [hfltp]
    simp
  · -- long-term time field
    have kb : (((old &&& 0x7f010000ff010000) >>> 17) &&& 0x7f) = 0 := backup_term_kill old 0x7f010000ff010000 17 0x7f (by decide)
    have ke47 : (((e47 <<< 47) >>> 17) &&& 0x7f) = 0 := field_term_kill 47 17 0x7f hfe47 (by decide)
    have kstp : (((stp <<< 32) >>> 17) &&& 0x7f) = 0 := field_term_kill 32 17 0x7f hfstp (by decide)
    have kstt : (((stt <<< 49) >>> 17) &&& 0x7f) = 0 := field_term_kill 49 17 0x7f hfstt (by decide)
    have ke15 : (((e15 <<< 15) >>> 17) &&& 0x7f) = 0 := field_term_kill 15 17 0x7f hfe15 (by decide)
    have kltp : ((ltp >>> 17) &&& 0x7f) = 0 := field_term_kill_noshift 17 0x7f hfltp (by decide)
    have klk : (((lk <<< 63) >>> 17) &&& 0x7f) = 0 := field_term_kill 63 17 0x7f hflk (by decide)
    have lv : (((ltt <<< 17) >>> 17) &&& 0x7f) = ltt := field_term_live ltt 0x7f 17 hfltt
    simp only [lor_shiftRight, lor_land]
    rw [kb, ke47, kstp, kstt, ke15, kltp, klk, lv]
    simp
  · -- locked bit
    have kb : (((old &&& 0x7f010000ff010000) >>> 63) &&& 1) = 0 := backup_term_kill old 0x7f010000ff010000 63 1 (by decide)
    have ke47 : (((e47 <<< 47) >>> 63) &&& 1) = 0 := field_term_kill 47 63 1 hfe47 (by decide)
    have kstp : (((stp <<< 32) >>> 63) &&& 1) = 0 := field_term_kill 32 63 1 hfstp (by decide)
    have kstt : (((stt <<< 49) >>> 63) &&& 1) = 0 := field_term_kill 49 63 1 hfstt (by decide)
    have ke15 : (((e15 <<< 15) >>> 63) &&& 1) = 0 := field_term_kill 15 63 1 hfe15 (by decide)
    have kltp : ((ltp >>> 63) &&& 1) = 0 := field_term_kill_noshift 63 1 hfltp (by decide)
    have kltt : (((ltt <<< 17) >>> 63) &&& 1) = 0 := field_term_kill 17 63 1 hfltt (by decide)
    have lv : (((lk <<< 63) >>> 63) &&& 1) = lk := field_term_live lk 1 63 hflk
    simp only [lor_shiftRight, lor_land]
    rw [kb, ke47, kstp, kstt, ke15, kltp, kltt, lv]
    simp

/-- Inversion of set_power_limit: a performed write means every check
passed, and the written value is the assembled write word. -/
theorem set_power_limit_write_inv (req : PowerLimitRequest) (units old_val readback : ℕ)
    (wv : ℤ) (hw : (set_power_limit req units old_val readback).writes = [wv]) :
    ∃ stt ltt : ℤ,
      resolved_short_term_time_field req units old_val = some stt ∧
      resolved_long_term_time_field req units old_val = some ltt ∧
      0 ≤ resolved_short_term_power_int req units old_val ∧
      resolved_short_term_power_int req units old_val ≤ 0x7fff ∧
      0 ≤ resolved_long_term_power_int req units old_val ∧
      resolved_long_term_power_int req units old_val ≤ 0x7fff ∧
      wv = power_limit_write_value req units old_val stt ltt := by
  rw [set_power_limit] at hw
  split at hw
  · exact absurd hw (by simp)
  split at hw
  · exact absurd hw (by simp)
  next hlock hstp =>
    split at hw
    · exact absurd hw (by simp)
    next stt heq =>
      split at hw
      · exact absurd hw (by simp)
      next hltp =>
        split at hw
        · exact absurd hw (by simp)
        next ltt heq2 =>
          push_neg at hstp hltp
          split at hw
          · simp only [List.cons.injEq, and_true] at hw
            exact ⟨stt, ltt, heq, heq2, hstp.1, hstp.2, hltp.1, hltp.2, hw.symm⟩
          · simp only [List.cons.injEq, and_true] at hw
            exact ⟨stt, ltt, heq, heq2, hstp.1, hstp.2, hltp.1, hltp.2, hw.symm⟩

/-- Python shifts of natural-number casts compute on ℕ. -/
theorem pyShiftLeft_natCast (a : ℕ) (k : ℕ) :
    pyShiftLeft (a : ℤ) k = ((a <<< k : ℕ) : ℤ) := by
  rw [pyShiftLeft, Nat.shiftLeft_eq]
  push_cast
  ring

/-- A boolean selector as an integer is the cast of the selector as a
natural number. -/
theorem if_one_zero_natCast (b : Bool) :
    (if b then (1:ℤ) else 0) = ((if b then 1 else 0 : ℕ) : ℤ) := by
  cases b <;> simp

/-- Python's int() on an integer-valued rational is that integer. -/
theorem pyInt_intCast (z : ℤ) : pyInt (z : ℚ) = z := by
  rw [pyInt]
  split
  · exact Int.floor_intCast z
  · exact Int.ceil_intCast z

/-- to_secondsVal reads only the low seven bits of the field. -/
theorem to_secondsVal_mod (f : ℕ) :
    to_secondsVal (f : ℤ) = to_secondsVal ((f % 128 : ℕ) : ℤ) := by
  rw [to_secondsVal, to_secondsVal]
  rw [show (0x1f:ℤ) = ((31:ℕ):ℤ) from rfl, show (0x3:ℤ) = ((3:ℕ):ℤ) from rfl]
  rw [int_land_natCast, int_land_natCast, int_shiftRight_natCast, int_shiftRight_natCast,
    int_land_natCast, int_land_natCast]
  have h31 : f &&& 31 = f % 128 &&& 31 := by
    have a1 := Nat.and_pow_two_sub_one_eq_mod f 5
    have a2 := Nat.and_pow_two_sub_one_eq_mod (f % 128) 5
    norm_num at a1 a2
    omega
  have h3 : (f >>> 5) &&& 3 = ((f % 128) >>> 5) &&& 3 := by
    have a1 := Nat.and_pow_two_sub_one_eq_mod (f >>> 5) 2
    have a2 := Nat.and_pow_two_sub_one_eq_mod ((f % 128) >>> 5) 2
    have b1 : f >>> 5 = f / 32 := by rw [Nat.shiftRight_eq_div_pow]
    have b2 : (f % 128) >>> 5 = (f % 128) / 32 := by rw [Nat.shiftRight_eq_div_pow]
    norm_num at a1 a2
    omega
  rw [h31, h3]

set_option maxRecDepth 4000 in
/-- Re-encoding the decoded value of a well-formed, non-saturating time
field returns the field unchanged (checked exhaustively over the 127
fields). -/
theorem encode_decode_id :
    ∀ g : ℕ, g < 127 → from_secondsVal (to_secondsVal (g : ℤ)) = some (g : ℤ) := by
  decide

/-- The field 127 decodes to exactly the saturation threshold
1.75 * 2^31 time units, so re-encoding it saturates to 0xfe instead of
returning 127. -/
theorem encode_decode_127 : from_secondsVal (to_secondsVal (127 : ℤ)) = some 0xfe := by
  decide

/-- C4 counterexample: with an all-zero register and unit scale 1, a
request asking only for an enormous short-term time window (2^33
seconds) saturates the time field to 0xfe, whose topmost bit spills
past the 7-bit window into reserved bit 56: the written value differs
from the pre-write register inside the reserved mask
0x7f010000ff010000. -/
theorem C4_counterexample :
    (set_power_limit ⟨some true, some 0, some ((2:ℚ)^33), none, none, none, some false⟩
        0 0 0).writes = [0x1fc800000000000] ∧
      Int.land 0x1fc800000000000 0x7f010000ff010000 ≠
        Int.land (0 : ℤ) 0x7f010000ff010000 := by
  constructor
  · decide
  · decide

/-- C4 amended: for every power-limit write whose two encoded time
fields are well-formed 7-bit values (in particular not saturated to
0xfe and not negative), every bit of the reserved mask
0x7f010000ff010000 appears in the written 64-bit value exactly as in
the pre-write register read, and every field left unspecified in the
request (enabled flags, power fields, time fields, lock bit) appears in
the written value bit-exactly as in the pre-write register read. -/
theorem C4_amended_reserved_and_inherit (req : PowerLimitRequest)
    (units old_val readback : ℕ) (wv stt ltt : ℤ)
    (hw : (set_power_limit req units old_val readback).writes = [wv])
    (hstt : resolved_short_term_time_field req units old_val = some stt)
    (hltt : resolved_long_term_time_field req units old_val = some ltt)
    (hstt0 : 0 ≤ stt) (hstt7 : stt ≤ 0x7f) (hltt0 : 0 ≤ ltt) (hltt7 : ltt ≤ 0x7f) :
    Int.land wv 0x7f010000ff010000 = ((old_val &&& 0x7f010000ff010000 : ℕ) : ℤ) ∧
      (req.short_term_enabled = none →
        Int.land (Int.shiftRight wv 47) 1 = (((old_val >>> 47) &&& 1 : ℕ) : ℤ)) ∧
      (req.short_term_power = none →
        Int.land (Int.shiftRight wv 32) 0x7fff = (((old_val >>> 32) &&& 0x7fff : ℕ) : ℤ)) ∧
      (req.short_term_time = none →
        Int.land (Int.shiftRight wv 49) 0x7f = (((old_val >>> 49) &&& 0x7f : ℕ) : ℤ)) ∧
      (req.long_term_enabled = none →
        Int.land (Int.shiftRight wv 15) 1 = (((old_val >>> 15) &&& 1 : ℕ) : ℤ)) ∧
      (req.long_term_power = none →
        Int.land wv 0x7fff = ((old_val &&& 0x7fff : ℕ) : ℤ)) ∧
      (req.long_term_time = none →
        Int.land (Int.shiftRight wv 17) 0x7f = (((old_val >>> 17) &&& 0x7f : ℕ) : ℤ)) ∧
      (req.locked = none →
        Int.land (Int.shiftRight wv 63) 1 = (((old_val >>> 63) &&& 1 : ℕ) : ℤ)) := by
  obtain ⟨stt', ltt', hstt', hltt', hsp0, hsp7, hlp0, hlp7, hwv⟩ :=
    set_power_limit_write_inv req units old_val readback wv hw
  have hstt'' : stt' = stt := by
    rw [hstt'] at hstt
    exact Option.some.inj hstt
  have hltt'' : ltt' = ltt := by
    rw [hltt'] at hltt
    exact Option.some.inj hltt
  subst hstt''
  subst hltt''
  rw [power_limit_write_value] at hwv
  have hbk : (read_power_limit units old_val).backup_rest =
      old_val &&& 0x7f010000ff010000 := rfl
  rw [hbk] at hwv
  lift stt' to ℕ using hstt0 with sttn hsttn
  lift ltt' to ℕ using hltt0 with lttn hlttn
  lift resolved_short_term_power_int req units old_val to ℕ using hsp0 with stpn hstpn
  lift resolved_long_term_power_int req units old_val to ℕ using hlp0 with ltpn hltpn
  rw [if_one_zero_natCast, if_one_zero_natCast, if_one_zero_natCast] at hwv
  simp only [pyShiftLeft_natCast, int_lor_natCast] at hwv
  have hifle : ∀ b : Bool, (if b then 1 else 0 : ℕ) ≤ 1 := by
    intro b
    cases b <;> norm_num
  obtain ⟨c1, c2, c3, c4, c5, c6, c7, c8⟩ := natW_spec old_val
    (if req.short_term_enabled.getD (read_power_limit units old_val).short_term_enabled
      then 1 else 0)
    stpn sttn
    (if req.long_term_enabled.getD (read_power_limit units old_val).long_term_enabled
      then 1 else 0)
    ltpn lttn
    (if req.locked.getD (read_power_limit units old_val).locked then 1 else 0)
    _ rfl (hifle _) (by exact_mod_cast hsp7) (by exact_mod_cast hstt7) (hifle _)
    (by exact_mod_cast hlp7) (by exact_mod_cast hltt7) (hifle _)
  refine ⟨?_, ?_, ?_, ?_, ?_, ?_, ?_, ?_⟩
  · rw [hwv, show (0x7f010000ff010000:ℤ) = ((0x7f010000ff010000:ℕ):ℤ) from rfl,
      int_land_natCast]
    exact_mod_cast c1
  · intro hnone
    rw [hwv, int_shiftRight_natCast, show (1:ℤ) = ((1:ℕ):ℤ) from rfl, int_land_natCast, c2]
    have hsel : (read_power_limit units old_val).short_term_enabled =
        decide ((old_val >>> 47) &&& 1 = 1) := rfl
    have hbit : (old_val >>> 47) &&& 1 ≤ 1 := Nat.and_le_right
    have he : (if req.short_term_enabled.getD
          (read_power_limit units old_val).short_term_enabled then 1 else 0 : ℕ) =
        (old_val >>> 47) &&& 1 := by
      rw [hnone, Option.getD_none, hsel]
      rcases Nat.le_one_iff_eq_zero_or_eq_one.mp hbit with h0 | h1
      · rw [h0]
        simp
      · rw [h1]
        simp
    exact_mod_cast he
  · intro hnone
    rw [hwv, int_shiftRight_natCast, show (0x7fff:ℤ) = ((0x7fff:ℕ):ℤ) from rfl,
      int_land_natCast, c3]
    have hres : resolved_short_term_power_int req units old_val =
        (((old_val >>> 32) &&& 0x7fff : ℕ) : ℤ) := by
      rw [resolved_short_term_power_int, hnone, Option.getD_none]
      rw [show (read_power_limit units old_val).short_term_power =
        ((((old_val >>> 32) &&& 0x7fff : ℕ)) : ℚ) / ((2 ^ (units &&& 0xf) : ℕ) : ℚ) from rfl]
      have hpu : ((2 ^ (units &&& 0xf) : ℕ) : ℚ) ≠ 0 := by positivity
      rw [div_mul_cancel₀ _ hpu]
      have hcast : ((((old_val >>> 32) &&& 0x7fff : ℕ)) : ℚ) =
          (((((old_val >>> 32) &&& 0x7fff : ℕ) : ℤ)) : ℚ) := by push_cast; ring
      rw [hcast, pyInt_intCast]
    have : (stpn : ℤ) = (((old_val >>> 32) &&& 0x7fff : ℕ) : ℤ) := hstpn.trans hres
    exact_mod_cast this
  · intro hnone
    rw [hwv, int_shiftRight_natCast, show (0x7f:ℤ) = ((0x7f:ℕ):ℤ) from rfl,
      int_land_natCast, c4]
    have h128 : (old_val >>> 49) &&& 0x7f = (old_val >>> 49) % 128 := by
      have h := Nat.and_pow_two_sub_one_eq_mod (old_val >>> 49) 7
      norm_num at h
      exact h
    have hres : resolved_short_term_time_field req units old_val =
        from_secondsVal (to_secondsVal (((old_val >>> 49) % 128 : ℕ) : ℤ)) := by
      rw [resolved_short_term_time_field, hnone, Option.getD_none]
      rw [show (read_power_limit units old_val).short_term_time =
        to_seconds (((old_val >>> 49) : ℕ) : ℤ)
          ((2 ^ ((units >>> 16) &&& 0xf) : ℕ) : ℚ) from rfl]
      rw [from_seconds, to_seconds]
      have hu : ((2 ^ ((units >>> 16) &&& 0xf) : ℕ) : ℚ) ≠ 0 := by positivity
      rw [div_mul_cancel₀ _ hu, to_secondsVal_mod]
    rw [hres] at hstt
    rcases Nat.lt_or_ge ((old_val >>> 49) % 128) 127 with hg | hg
    · have hid := encode_decode_id _ hg
      rw [hid] at hstt
      have hg2 : (((old_val >>> 49) % 128 : ℕ) : ℤ) = (sttn : ℤ) := Option.some.inj hstt
      rw [h128]
      exact_mod_cast hg2.symm
    · have hg127 : (old_val >>> 49) % 128 = 127 := by omega
      have hg127c : (((old_val >>> 49) % 128 : ℕ) : ℤ) = ((127 : ℕ) : ℤ) := by
        exact_mod_cast hg127
      rw [hg127c] at hstt
      rw [show ((127 : ℕ) : ℤ) = (127 : ℤ) from rfl, encode_decode_127] at hstt
      have h254 : (254 : ℤ) = (sttn : ℤ) := Option.some.inj hstt
      have hs7 : ((sttn : ℕ) : ℤ) ≤ 127 := hstt7
      omega
  · intro hnone
    rw [hwv, int_shiftRight_natCast, show (1:ℤ) = ((1:ℕ):ℤ) from rfl, int_land_natCast, c5]
    have hsel : (read_power_limit units old_val).long_term_enabled =
        decide ((old_val >>> 15) &&& 1 = 1) := rfl
    have hbit : (old_val >>> 15) &&& 1 ≤ 1 := Nat.and_le_right
    have he : (if req.long_term_enabled.getD
          (read_power_limit units old_val).long_term_enabled then 1 else 0 : ℕ) =
        (old_val >>> 15) &&& 1 := by
      rw [hnone, Option.getD_none, hsel]
      rcases Nat.le_one_iff_eq_zero_or_eq_one.mp hbit with h0 | h1
      · rw [h0]
        simp
      · rw [h1]
        simp
    exact_mod_cast he
  · intro hnone
    rw [hwv, show (0x7fff:ℤ) = ((0x7fff:ℕ):ℤ) from rfl, int_land_natCast, c6]
    have hres : resolved_long_term_power_int req units old_val =
        ((old_val &&& 0x7fff : ℕ) : ℤ) := by
      rw [resolved_long_term_power_int, hnone, Option.getD_none]
      rw [show (read_power_limit units old_val).long_term_power =
        (((old_val &&& 0x7fff : ℕ)) : ℚ) / ((2 ^ (units &&& 0xf) : ℕ) : ℚ) from rfl]
      have hpu : ((2 ^ (units &&& 0xf) : ℕ) : ℚ) ≠ 0 := by positivity
      rw [div_mul_cancel₀ _ hpu]
      have hcast : (((old_val &&& 0x7fff : ℕ)) : ℚ) =
          ((((old_val &&& 0x7fff : ℕ) : ℤ)) : ℚ) := by push_cast; ring
      rw [hcast, pyInt_intCast]
    have : (ltpn : ℤ) = ((old_val &&& 0x7fff : ℕ) : ℤ) := hltpn.trans hres
    exact_mod_cast this
  · intro hnone
    rw [hwv, int_shiftRight_natCast, show (0x7f:ℤ) = ((0x7f:ℕ):ℤ) from rfl,
      int_land_natCast, c7]
    have h128 : (old_val >>> 17) &&& 0x7f = (old_val >>> 17) % 128 := by
      have h := Nat.and_pow_two_sub_one_eq_mod (old_val >>> 17) 7
      norm_num at h
      exact h
    have hres : resolved_long_term_time_field req units old_val =
        from_secondsVal (to_secondsVal (((old_val >>> 17) % 128 : ℕ) : ℤ)) := by
      rw [resolved_long_term_time_field, hnone, Option.getD_none]
      rw [show (read_power_limit units old_val).long_term_time =
        to_seconds (((old_val >>> 17) : ℕ) : ℤ)
          ((2 ^ ((units >>> 16) &&& 0xf) : ℕ) : ℚ) from rfl]
      rw [from_seconds, to_seconds]
      have hu : ((2 ^ ((units >>> 16) &&& 0xf) : ℕ) : ℚ) ≠ 0 := by positivity
      rw [div_mul_cancel₀ _ hu, to_secondsVal_mod]
    rw [hres] at hltt
    rcases Nat.lt_or_ge ((old_val >>> 17) % 128) 127 with hg | hg
    · have hid := encode_decode_id _ hg
      rw [hid] at hltt
      have hg2 : (((old_val >>> 17) % 128 : ℕ) : ℤ) = (lttn : ℤ) := Option.some.inj hltt
      rw [h128]
      exact_mod_cast hg2.symm
    · have hg127 : (old_val >>> 17) % 128 = 127 := by omega
      have hg127c : (((old_val >>> 17) % 128 : ℕ) : ℤ) = ((127 : ℕ) : ℤ) := by
        exact_mod_cast hg127
      rw [hg127c] at hltt
      rw [show ((127 : ℕ) : ℤ) = (127 : ℤ) from rfl, encode_decode_127] at hltt
      have h254 : (254 : ℤ) = (lttn : ℤ) := Option.some.inj hltt
      have hs7 : ((lttn : ℕ) : ℤ) ≤ 127 := hltt7
      omega
  · intro hnone
    rw [hwv, int_shiftRight_natCast, show (1:ℤ) = ((1:ℕ):ℤ) from rfl, int_land_natCast, c8]
    have hsel : (read_power_limit units old_val).locked =
        decide ((old_val >>> 63) &&& 1 = 1) := rfl
    have hbit : (old_val >>> 63) &&& 1 ≤ 1 := Nat.and_le_right
    have he : (if req.locked.getD
          (read_power_limit units old_val).locked then 1 else 0 : ℕ) =
        (old_val >>> 63) &&& 1 := by
      rw [hnone, Option.getD_none, hsel]
      rcases Nat.le_one_iff_eq_zero_or_eq_one.mp hbit with h0 | h1
      · rw [h0]
        simp
      · rw [h1]
        simp
    exact_mod_cast he

/-- Witness for the amended C4 theorem at a concrete input: an all-none
request against a zero register with unit scale 0 and readback 0 writes
the value 0, both resolved time fields are some 0, and all the
preservation and inheritance equations hold at these values. -/
theorem C4_amended_reserved_and_inherit_witness :
    Int.land (0 : ℤ) 0x7f010000ff010000 = (((0 : ℕ) &&& 0x7f010000ff010000 : ℕ) : ℤ) ∧
      ((none : Option Bool) = none →
        Int.land (Int.shiftRight (0 : ℤ) 47) 1 = ((((0 : ℕ) >>> 47) &&& 1 : ℕ) : ℤ)) ∧
      ((none : Option ℚ) = none →
        Int.land (Int.shiftRight (0 : ℤ) 32) 0x7fff =
          ((((0 : ℕ) >>> 32) &&& 0x7fff : ℕ) : ℤ)) ∧
      ((none : Option ℚ) = none →
        Int.land (Int.shiftRight (0 : ℤ) 49) 0x7f = ((((0 : ℕ) >>> 49) &&& 0x7f : ℕ) : ℤ)) ∧
      ((none : Option Bool) = none →
        Int.land (Int.shiftRight (0 : ℤ) 15) 1 = ((((0 : ℕ) >>> 15) &&& 1 : ℕ) : ℤ)) ∧
      ((none : Option ℚ) = none →
        Int.land (0 : ℤ) 0x7fff = (((0 : ℕ) &&& 0x7fff : ℕ) : ℤ)) ∧
      ((none : Option ℚ) = none →
        Int.land (Int.shiftRight (0 : ℤ) 17) 0x7f = ((((0 : ℕ) >>> 17) &&& 0x7f : ℕ) : ℤ)) ∧
      ((none : Option Bool) = none →
        Int.land (Int.shiftRight (0 : ℤ) 63) 1 = ((((0 : ℕ) >>> 63) &&& 1 : ℕ) : ℤ)) := by
  exact C4_amended_reserved_and_inherit ⟨none, none, none, none, none, none, none⟩ 0 0 0 0 0 0
    (by decide) (by decide) (by decide) (by decide) (by decide) (by decide) (by decide)

end Undervolt

end Spec2Proof
